import Mathlib

/-!
# Verification of the menualic manual-collaboration service

Shallow embedding of the data model and the HTTP-handler logic of the
repository (Next.js + Prisma, TypeScript), together with theorems settling
the specification claims.  Relational rows are lists of structures; ids are
natural numbers standing for the string ids of the store; Prisma
queries (`findUnique`, `findFirst`, `findMany`, `create`, `update`,
`deleteMany`) become list operations; fresh row identities generated by the
store are passed in explicitly; `JSON.parse` (a platform primitive) is
modelled as an `Option`-returning parameter.
-/

namespace Menualic

/-! ## Data model (prisma schema rows) -/

inductive TeamRole where
  | OWNER
  | EDITOR
  | VIEWER
deriving DecidableEq, Repr

inductive SharePerm where
  | EDITOR
  | VIEWER
deriving DecidableEq, Repr

inductive Permission where
  | OWNER
  | EDITOR
  | VIEWER
  | NONE
deriving DecidableEq, Repr

inductive BlockType where
  | HEADING1
  | HEADING2
  | HEADING3
  | BODY
  | IMAGE
  | VIDEO
  | TABLE
  | CODE
  | DIVIDER
deriving DecidableEq, Repr

inductive AccessType where
  | TITLE_ONLY
  | FULL_ACCESS
deriving DecidableEq, Repr

structure TeamRow where
  id : Nat
  ownerId : Nat
  name : String
  description : Option String
deriving DecidableEq, Repr

structure TeamMemberRow where
  userId : Nat
  teamId : Nat
  role : TeamRole
deriving DecidableEq, Repr

structure ManualRow where
  id : Nat
  ownerId : Nat
  teamId : Nat
  title : String
  description : Option String
deriving DecidableEq, Repr

structure ManualShareRow where
  manualId : Nat
  userId : Nat
  permission : SharePerm
deriving DecidableEq, Repr

structure SectionRow where
  id : Nat
  manualId : Nat
  title : String
  order : Int
  depth : Nat
  parentId : Option Nat
deriving DecidableEq, Repr

structure BlockRow where
  id : Nat
  sectionId : Nat
  type : BlockType
  content : String
  order : Int
deriving DecidableEq, Repr

structure VersionRow where
  id : Nat
  manualId : Nat
  content : String
deriving DecidableEq, Repr

structure ShareLinkRow where
  token : String
  manualId : Nat
  accessType : AccessType
  isActive : Bool
  expiresAt : Option Nat
deriving DecidableEq, Repr

/-- The relational store: one list per table. -/
structure DB where
  teams : List TeamRow
  teamMembers : List TeamMemberRow
  manuals : List ManualRow
  manualShares : List ManualShareRow
  sections : List SectionRow
  blocks : List BlockRow
  versions : List VersionRow
  externalShareLinks : List ShareLinkRow
deriving DecidableEq, Repr

/-- Generic HTTP response skeleton: status code plus the optional error
message, as produced by the route handlers. -/
structure ApiResponse where
  status : Nat
  ok : Bool
  error : Option String
deriving DecidableEq, Repr

/-! ## Shared query helpers (prisma lookups) -/

/-- Lookup `prisma.manual.findUnique` by manual id. -/
def findManual (db : DB) (manualId : Nat) : Option ManualRow :=
  db.manuals.find? (fun m => m.id == manualId)

/-- Lookup `prisma.manualSection.findUnique` by section id. -/
def findSection (db : DB) (sectionId : Nat) : Option SectionRow :=
  db.sections.find? (fun s => s.id == sectionId)

/-- Role of `userId` inside `teamId`: the `members` sub-query
`{ where: { userId } }` on the manual's team, or equivalently
`prisma.teamMember.findFirst({ where: { userId, teamId } })`. -/
def teamRoleOf (db : DB) (userId teamId : Nat) : Option TeamRole :=
  (db.teamMembers.find? (fun tm => tm.userId == userId && tm.teamId == teamId)).map
    (fun tm => tm.role)

/-- Explicit `prisma.manualShare` row for `(manualId, userId)`, if any. -/
def findShare (db : DB) (manualId userId : Nat) : Option ManualShareRow :=
  db.manualShares.find? (fun sh => sh.manualId == manualId && sh.userId == userId)

/-! ## C1: the permission resolver (src/lib/permissions.ts) -/

structure PermissionResult where
  permission : Permission
  canEdit : Bool
  canDelete : Bool
  canShare : Bool
deriving DecidableEq, Repr

/-- Function `checkManualPermission` from `src/lib/permissions.ts` lines 18-62,
translated clause by clause.  Note the source consults only ownership and
the team-member role; it performs no `manualShare` query. -/
def checkManualPermission (db : DB) (userId manualId : Nat) : PermissionResult :=
  match findManual db manualId with
  | none => { permission := .NONE, canEdit := false, canDelete := false, canShare := false }
  | some manual =>
    let isOwner := manual.ownerId == userId
    let memberRole := teamRoleOf db userId manual.teamId
    let permission : Permission :=
      if isOwner || memberRole == some .OWNER then .OWNER
      else if memberRole == some .EDITOR then .EDITOR
      else if memberRole == some .VIEWER then .VIEWER
      else .NONE
    { permission := permission
      canEdit := permission == .OWNER || permission == .EDITOR
      canDelete := permission == .OWNER
      canShare := permission == .OWNER }

def sharePermToPermission : SharePerm → Permission
  | .EDITOR => .EDITOR
  | .VIEWER => .VIEWER

/-- The resolver as the specification words it (spec section 4.1): owner and
team role first, and otherwise "the explicit share's permission if present;
else NONE".  Written from the spec's words for comparison with
`checkManualPermission`, which is translated from the source. -/
def specResolvePermission (db : DB) (userId manualId : Nat) : Permission :=
  match findManual db manualId with
  | none => .NONE
  | some manual =>
    if manual.ownerId == userId || teamRoleOf db userId manual.teamId == some .OWNER then
      .OWNER
    else if teamRoleOf db userId manual.teamId == some .EDITOR then .EDITOR
    else if teamRoleOf db userId manual.teamId == some .VIEWER then .VIEWER
    else
      match findShare db manualId userId with
      | some sh => sharePermToPermission sh.permission
      | none => .NONE

/-- The precedence `checkManualPermission` actually implements: ownership
and team role only, with no share fallback. -/
def teamOnlyPermission (db : DB) (userId manualId : Nat) : Permission :=
  match findManual db manualId with
  | none => .NONE
  | some manual =>
    if manual.ownerId == userId || teamRoleOf db userId manual.teamId == some .OWNER then
      .OWNER
    else if teamRoleOf db userId manual.teamId == some .EDITOR then .EDITOR
    else if teamRoleOf db userId manual.teamId == some .VIEWER then .VIEWER
    else .NONE

/-- Store with one manual (id 7, owner 1, team 10) and a user 2 who has an
explicit VIEWER share on it but no team membership. -/
def shareOnlyDB : DB :=
  { teams := [{ id := 10, ownerId := 1, name := "t", description := none }]
    teamMembers := [{ userId := 1, teamId := 10, role := .OWNER }]
    manuals := [{ id := 7, ownerId := 1, teamId := 10, title := "m", description := none }]
    manualShares := [{ manualId := 7, userId := 2, permission := .VIEWER }]
    sections := []
    blocks := []
    versions := []
    externalShareLinks := [] }

/-- C1 counterexample: user 2 holds an explicit VIEWER share on manual 7 and
has no team membership, yet `checkManualPermission` resolves to NONE — the
function never consults the ManualShare table, so the claimed share
fallback (which would give VIEWER, as `specResolvePermission` shows) does
not exist in this resolver. -/
theorem checkManualPermission_ignores_share_counterexample :
    (checkManualPermission shareOnlyDB 2 7).permission = Permission.NONE ∧
    findShare shareOnlyDB 7 2 =
      some { manualId := 7, userId := 2, permission := SharePerm.VIEWER } ∧
    teamRoleOf shareOnlyDB 2 10 = none ∧
    shareOnlyDB.manuals
      = [{ id := 7, ownerId := 1, teamId := 10, title := "m", description := none }] ∧
    specResolvePermission shareOnlyDB 2 7 = Permission.VIEWER := by
  refine ⟨rfl, rfl, rfl, rfl, rfl⟩

/-- C1 (amended): `checkManualPermission` resolves from ownership and team
role only — OWNER if the user owns the manual or is team OWNER, else EDITOR
for team EDITOR, else VIEWER for team VIEWER, else NONE — and it ignores
ManualShare rows entirely: its result is invariant under arbitrary changes
to the share table, so a user whose only grant is an explicit share
resolves to NONE. -/
theorem checkManualPermission_team_only (db : DB) (userId manualId : Nat)
    (shares : List ManualShareRow) :
    checkManualPermission { db with manualShares := shares } userId manualId
      = checkManualPermission db userId manualId ∧
    (checkManualPermission db userId manualId).permission
      = teamOnlyPermission db userId manualId := by
  constructor
  · rfl
  · unfold checkManualPermission teamOnlyPermission
    cases findManual db manualId with
    | none => rfl
    | some manual => rfl

/-! ## C2 / C9: external share link fetch (src/app/api/share/[token]/route.ts)

The GET handler looks the link up by token, rejects missing (404), inactive
(403) and expired (410) links, builds the nested section tree, and for
TITLE_ONLY links strips all block content with `removeSectionContent`. -/

mutual
inductive TreeSection where
  | mk : Nat → String → Int → Nat → List BlockRow → TreeSectionList → TreeSection
inductive TreeSectionList where
  | nil : TreeSectionList
  | cons : TreeSection → TreeSectionList → TreeSectionList
end

def TreeSection.blocks : TreeSection → List BlockRow
  | .mk _ _ _ _ bs _ => bs

def TreeSection.children : TreeSection → TreeSectionList
  | .mk _ _ _ _ _ cs => cs

mutual
/-- Source `removeSectionContent` (route.ts lines 103-112): rebuild every node
keeping only id/title/order/depth/children and an empty `blocks` array. -/
def removeSectionContent : TreeSectionList → TreeSectionList
  | .nil => .nil
  | .cons s rest => .cons (removeSectionContentOne s) (removeSectionContent rest)
def removeSectionContentOne : TreeSection → TreeSection
  | .mk i t o d _blocks children => .mk i t o d [] (removeSectionContent children)
end

mutual
/-- Every node of the tree, at every depth, has an empty `blocks` array. -/
def allBlocksEmpty : TreeSection → Bool
  | .mk _ _ _ _ bs children => bs.isEmpty && allBlocksEmptyList children
def allBlocksEmptyList : TreeSectionList → Bool
  | .nil => true
  | .cons s rest => allBlocksEmpty s && allBlocksEmptyList rest
end

/-- The response's `sections` field: `removeSectionContent` is applied
exactly when the link's access type is TITLE_ONLY (route.ts lines 101-114). -/
def shareResponseSections (accessType : AccessType) (tree : TreeSectionList) :
    TreeSectionList :=
  if accessType == .TITLE_ONLY then removeSectionContent tree else tree

mutual
theorem allBlocksEmpty_removeOne (s : TreeSection) :
    allBlocksEmpty (removeSectionContentOne s) = true :=
  match s with
  | .mk i t o d bs cs => by
    simp [removeSectionContentOne, allBlocksEmpty, allBlocksEmptyList_remove cs]
theorem allBlocksEmptyList_remove (l : TreeSectionList) :
    allBlocksEmptyList (removeSectionContent l) = true :=
  match l with
  | .nil => by simp [removeSectionContent, allBlocksEmptyList]
  | .cons s rest => by
    simp [removeSectionContent, allBlocksEmptyList, allBlocksEmpty_removeOne s,
      allBlocksEmptyList_remove rest]
end

/-- C2: for a TITLE_ONLY external link, the returned section tree has, at
every depth, an empty `blocks` array on every section (so no non-empty
block content field appears anywhere in the response tree), for arbitrary
nesting. -/
theorem titleOnly_response_strips_all_blocks (tree : TreeSectionList) :
    allBlocksEmptyList (shareResponseSections AccessType.TITLE_ONLY tree) = true := by
  simpa [shareResponseSections] using allBlocksEmptyList_remove tree

/-- GET /api/share/[token] guard logic (route.ts lines 44-65), returning the
response and, on success, the served payload (access type and manual id). -/
def shareTokenGet (db : DB) (token : String) (now : Nat) :
    ApiResponse × Option (AccessType × Nat) :=
  match db.externalShareLinks.find? (fun l => l.token == token) with
  | none => ({ status := 404, ok := false, error := some "유효하지 않은 공유 링크입니다" }, none)
  | some link =>
    if !link.isActive then
      ({ status := 403, ok := false, error := some "비활성화된 링크입니다" }, none)
    else
      match link.expiresAt with
      | some t =>
        if t < now then
          ({ status := 410, ok := false, error := some "만료된 링크입니다" }, none)
        else ({ status := 200, ok := true, error := none }, some (link.accessType, link.manualId))
      | none => ({ status := 200, ok := true, error := none }, some (link.accessType, link.manualId))

/-- C9: if the link exists but is inactive the fetch is rejected with 403;
if it is active but carries an expiry earlier than the current time it is
rejected with 410; and the manual is served exactly when the link is active
and unexpired. -/
theorem shareTokenGet_guards (db : DB) (token : String) (now : Nat)
    (link : ShareLinkRow)
    (hfind : db.externalShareLinks.find? (fun l => l.token == token) = some link) :
    (link.isActive = false →
      (shareTokenGet db token now).1.status = 403 ∧ (shareTokenGet db token now).2 = none) ∧
    (link.isActive = true → ∀ t, link.expiresAt = some t → t < now →
      (shareTokenGet db token now).1.status = 410 ∧ (shareTokenGet db token now).2 = none) ∧
    ((shareTokenGet db token now).2 = some (link.accessType, link.manualId) ↔
      link.isActive = true ∧ ∀ t, link.expiresAt = some t → ¬ t < now) := by
  unfold shareTokenGet
  rw [hfind]
  refine ⟨fun hinact => ?_, fun hact t het hlt => ?_, ?_⟩
  · simp [hinact]
  · simp [hact, het, hlt]
  · cases hact : link.isActive with
    | false => simp [hact]
    | true =>
      cases het : link.expiresAt with
      | none => simp [hact, het]
      | some t =>
        by_cases hlt : t < now
        · simp [hact, het, hlt]
        · simp [hact, het, hlt, Nat.le_of_not_lt hlt]

/-- Store with three external links on manual 7: an inactive one, an active
expired one, and an active unexpired one. -/
def shareLinkDB : DB :=
  { teams := []
    teamMembers := []
    manuals := [{ id := 7, ownerId := 1, teamId := 10, title := "m", description := none }]
    manualShares := []
    sections := []
    blocks := []
    versions := []
    externalShareLinks :=
      [ { token := "dead", manualId := 7, accessType := .FULL_ACCESS, isActive := false,
          expiresAt := none }
      , { token := "old", manualId := 7, accessType := .FULL_ACCESS, isActive := true,
          expiresAt := some 5 }
      , { token := "live", manualId := 7, accessType := .TITLE_ONLY, isActive := true,
          expiresAt := some 50 } ] }

/-- C9 witness: at time 20, the inactive link is rejected with 403, the
expired link with 410, and the live link serves the manual. -/
theorem shareTokenGet_guards_witness :
    ((shareTokenGet shareLinkDB "dead" 20).1.status = 403 ∧
      (shareTokenGet shareLinkDB "dead" 20).2 = none) ∧
    ((shareTokenGet shareLinkDB "old" 20).1.status = 410 ∧
      (shareTokenGet shareLinkDB "old" 20).2 = none) ∧
    (shareTokenGet shareLinkDB "live" 20).2 = some (AccessType.TITLE_ONLY, 7) := by
  refine ⟨?_, ?_, ?_⟩
  · exact (shareTokenGet_guards shareLinkDB "dead" 20
      { token := "dead", manualId := 7, accessType := .FULL_ACCESS, isActive := false,
        expiresAt := none } (by decide)).1 rfl
  · exact (shareTokenGet_guards shareLinkDB "old" 20
      { token := "old", manualId := 7, accessType := .FULL_ACCESS, isActive := true,
        expiresAt := some 5 } (by decide)).2.1 rfl 5 rfl (by decide)
  · exact (shareTokenGet_guards shareLinkDB "live" 20
      { token := "live", manualId := 7, accessType := .TITLE_ONLY, isActive := true,
        expiresAt := some 50 } (by decide)).2.2.mpr ⟨rfl, by decide⟩

/-! ## C7: team creation (src/app/api/team/route.ts POST) -/

/-- POST /api/team: rejects with 400 when the user already has any
TeamMember row; otherwise creates the Team and its OWNER membership inside
one transaction. -/
def createTeamEndpoint (db : DB) (userId : Nat) (name : String)
    (description : Option String) (freshTeamId : Nat) : ApiResponse × DB :=
  match db.teamMembers.find? (fun tm => tm.userId == userId) with
  | some _ =>
    ({ status := 400, ok := false,
       error := some "이미 팀에 소속되어 있습니다. 한 사용자는 하나의 팀에만 소속할 수 있습니다." }, db)
  | none =>
    let team : TeamRow :=
      { id := freshTeamId, ownerId := userId, name := name, description := description }
    let member : TeamMemberRow := { userId := userId, teamId := freshTeamId, role := .OWNER }
    ({ status := 200, ok := true, error := none },
      { db with teams := db.teams ++ [team], teamMembers := db.teamMembers ++ [member] })

/-- C7: when the user already has any TeamMember row, POST /api/team
returns 400 and the store is returned untouched — in particular no Team
row and no TeamMember row is created. -/
theorem createTeam_rejects_existing_member (db : DB) (userId : Nat) (name : String)
    (description : Option String) (freshTeamId : Nat)
    (hmem : db.teamMembers.any (fun tm => tm.userId == userId) = true) :
    (createTeamEndpoint db userId name description freshTeamId).1.status = 400 ∧
    (createTeamEndpoint db userId name description freshTeamId).2 = db ∧
    (createTeamEndpoint db userId name description freshTeamId).2.teams = db.teams ∧
    (createTeamEndpoint db userId name description freshTeamId).2.teamMembers
      = db.teamMembers := by
  unfold createTeamEndpoint
  cases hfind : db.teamMembers.find? (fun tm => tm.userId == userId) with
  | none =>
    rw [List.find?_eq_none] at hfind
    rw [List.any_eq_true] at hmem
    obtain ⟨tm, htm, hp⟩ := hmem
    exact absurd hp (by simpa using hfind tm htm)
  | some tm => exact ⟨rfl, rfl, rfl, rfl⟩

/-- C7 witness: user 1 already belongs to team 10, so creating another team
leaves the store unchanged and returns 400. -/
theorem createTeam_rejects_existing_member_witness :
    (createTeamEndpoint shareOnlyDB 1 "new" none 99).1.status = 400 ∧
    (createTeamEndpoint shareOnlyDB 1 "new" none 99).2 = shareOnlyDB ∧
    (createTeamEndpoint shareOnlyDB 1 "new" none 99).2.teams = shareOnlyDB.teams ∧
    (createTeamEndpoint shareOnlyDB 1 "new" none 99).2.teamMembers
      = shareOnlyDB.teamMembers :=
  createTeam_rejects_existing_member shareOnlyDB 1 "new" none 99 (by decide)

/-! ## Shared route-level edit gate

Every document-mutation route repeats the same inline check (also factored
as `checkManualEditPermission` in src/lib/permissions-helpers.ts): the
requester owns the manual or holds the OWNER or EDITOR role in the
manual's team. -/

def routeCanEdit (db : DB) (userId : Nat) (manual : ManualRow) : Bool :=
  manual.ownerId == userId
    || teamRoleOf db userId manual.teamId == some .OWNER
    || teamRoleOf db userId manual.teamId == some .EDITOR

/-! ## Sibling-order computation

`findFirst({ orderBy: { order: desc }, select: { order } })` returns the
greatest `order` among the selected rows, if any; the caller then computes
`(maxOrderRow?.order ?? -1) + 1`. -/

def maxOrder? : List Int → Option Int
  | [] => none
  | x :: xs =>
    match maxOrder? xs with
    | none => some x
    | some m => some (max x m)

theorem maxOrder?_spec (l : List Int) (m : Int) (h : maxOrder? l = some m) :
    m ∈ l ∧ ∀ x ∈ l, x ≤ m := by
  induction l generalizing m with
  | nil => simp [maxOrder?] at h
  | cons x xs ih =>
    rw [maxOrder?] at h
    cases hxs : maxOrder? xs with
    | none =>
      rw [hxs] at h
      simp at h
      subst h
      have hnil : xs = [] := by
        cases xs with
        | nil => rfl
        | cons y ys =>
          exfalso
          rw [maxOrder?] at hxs
          split at hxs <;> simp_all
      subst hnil
      simp
    | some m' =>
      rw [hxs] at h
      simp at h
      obtain ⟨hm', hall⟩ := ih m' hxs
      subst h
      constructor
      · rcases max_choice x m' with hc | hc
        · rw [hc]; exact List.mem_cons_self x xs
        · rw [hc]; exact List.mem_cons_of_mem x hm'
      · intro z hz
        rcases List.mem_cons.mp hz with hz | hz
        · rw [hz]; exact le_max_left x m'
        · exact le_trans (hall z hz) (le_max_right x m')

theorem maxOrder?_isSome (l : List Int) (h : l ≠ []) : (maxOrder? l).isSome = true := by
  cases l with
  | nil => exact absurd rfl h
  | cons x xs =>
    rw [maxOrder?]
    cases maxOrder? xs <;> rfl

/-- The order values 0, 1, ..., k-1 as a list of integers. -/
def intRange (k : Nat) : List Int :=
  (List.range k).map (fun n => (n : Int))

theorem maxOrder?_intRange (k : Nat) :
    (maxOrder? (intRange k)).getD (-1) + 1 = (k : Int) := by
  cases k with
  | zero => rfl
  | succ n =>
    have hne : intRange (n + 1) ≠ [] := by
      simp [intRange, List.range_succ]
    cases hm : maxOrder? (intRange (n + 1)) with
    | none =>
      have hs := maxOrder?_isSome (intRange (n + 1)) hne
      rw [hm] at hs
      simp at hs
    | some m =>
      obtain ⟨hmem, hall⟩ := maxOrder?_spec _ _ hm
      have hub : m ≤ (n : Int) := by
        obtain ⟨j, hj, hjm⟩ := by simpa [intRange, List.mem_map, List.mem_range] using hmem
        omega
      have hlb : (n : Int) ≤ m := by
        refine hall _ ?_
        simp only [intRange, List.mem_map]
        exact ⟨n, by simp [List.mem_range], rfl⟩
      have : m = (n : Int) := le_antisymm hub hlb
      subst this
      simp

/-! ## C10 / C5: adding blocks (POST /api/manual/[id]/block) -/

/-- Blocks of one section, in table order: the rows matched by
`{ where: { sectionId } }`. -/
def sectionBlocks (db : DB) (sectionId : Nat) : List BlockRow :=
  db.blocks.filter (fun b => b.sectionId == sectionId)

/-- Core of the add-block handler: `nextOrder = (maxOrderBlock?.order ?? -1) + 1`
over the blocks of the caller-supplied section, then `contentBlock.create`.
The store assigns the fresh row id, passed here explicitly. -/
def addBlockTx (db : DB) (sectionId : Nat) (ty : BlockType) (content : String)
    (freshId : Nat) : DB × BlockRow :=
  let nextOrder := (maxOrder? ((sectionBlocks db sectionId).map (fun b => b.order))).getD (-1) + 1
  let block : BlockRow :=
    { id := freshId, sectionId := sectionId, type := ty, content := content,
      order := nextOrder }
  ({ db with blocks := db.blocks ++ [block] }, block)

/-- POST /api/manual/[id]/block: authenticates, requires edit access on the
manual named in the URL (`requireManualEditAccess`), validates the body and
creates the block in the body's `sectionId` — which is never compared
against the URL manual. -/
def addBlockEndpoint (db : DB) (userId manualId sectionId : Nat) (ty : BlockType)
    (content : String) (freshId : Nat) : ApiResponse × DB × Option BlockRow :=
  match findManual db manualId with
  | none => ({ status := 404, ok := false, error := some "메뉴얼을 찾을 수 없습니다" }, db, none)
  | some manual =>
    if !routeCanEdit db userId manual then
      ({ status := 403, ok := false, error := some "편집 권한이 없습니다" }, db, none)
    else
      let out := addBlockTx db sectionId ty content freshId
      ({ status := 200, ok := true, error := none }, out.1, some out.2)

/-- C10: the add-block endpoint checks edit access only against the URL
manual; a caller with edit access there who supplies a section of a
different manual succeeds, and the block is appended to that other
manual's section. -/
theorem addBlock_crosses_manual_boundary (db : DB) (userId manualId sectionId : Nat)
    (ty : BlockType) (content : String) (freshId : Nat)
    (manual : ManualRow) (hm : findManual db manualId = some manual)
    (hedit : routeCanEdit db userId manual = true)
    (sec : SectionRow) (hs : findSection db sectionId = some sec)
    (hother : sec.manualId ≠ manualId) :
    (addBlockEndpoint db userId manualId sectionId ty content freshId).1.status = 200 ∧
    ∃ b, (addBlockEndpoint db userId manualId sectionId ty content freshId).2.1.blocks
        = db.blocks ++ [b] ∧
      b.sectionId = sectionId ∧ b.id = freshId ∧
      (addBlockEndpoint db userId manualId sectionId ty content freshId).2.2 = some b := by
  unfold addBlockEndpoint
  rw [hm]
  dsimp only
  rw [hedit]
  exact ⟨rfl, _, rfl, rfl, rfl, rfl⟩

def manual7 : ManualRow :=
  { id := 7, ownerId := 1, teamId := 10, title := "m7", description := none }

def manual8 : ManualRow :=
  { id := 8, ownerId := 2, teamId := 11, title := "m8", description := none }

def sec70 : SectionRow :=
  { id := 70, manualId := 7, title := "s70", order := 0, depth := 1, parentId := none }

/-- Store for the cross-manual witness: user 2 owns manual 8 (team 11) but
has no access to manual 7, whose section 70 nevertheless receives the
block. -/
def crossManualDB : DB :=
  { teams :=
      [ { id := 10, ownerId := 1, name := "a", description := none }
      , { id := 11, ownerId := 2, name := "b", description := none } ]
    teamMembers :=
      [ { userId := 1, teamId := 10, role := .OWNER }
      , { userId := 2, teamId := 11, role := .OWNER } ]
    manuals := [manual7, manual8]
    manualShares := []
    sections := [sec70]
    blocks := []
    versions := []
    externalShareLinks := [] }

/-- C10 witness: user 2, editing under their own manual 8, creates a block
inside section 70 of manual 7. -/
theorem addBlock_crosses_manual_boundary_witness :
    (addBlockEndpoint crossManualDB 2 8 70 BlockType.BODY "<p>x</p>" 900).1.status = 200 ∧
    ∃ b, (addBlockEndpoint crossManualDB 2 8 70 BlockType.BODY "<p>x</p>" 900).2.1.blocks
        = crossManualDB.blocks ++ [b] ∧
      b.sectionId = 70 ∧ b.id = 900 ∧
      (addBlockEndpoint crossManualDB 2 8 70 BlockType.BODY "<p>x</p>" 900).2.2 = some b :=
  addBlock_crosses_manual_boundary crossManualDB 2 8 70 BlockType.BODY "<p>x</p>" 900
    manual8 (by decide) (by decide) sec70 (by decide) (by decide)

/-! ## C6: adding sections (POST /api/manual/[id]/section) -/

/-- Sibling scope of an insertion: rows matched by
`{ where: { manualId, parentId: parentId || null } }`. -/
def siblingSections (db : DB) (manualId : Nat) (parentId : Option Nat) : List SectionRow :=
  db.sections.filter (fun s => s.manualId == manualId && s.parentId == parentId)

/-- Core of the add-section handler: depth from the parent lookup
(defaulting to 1), order = max sibling order + 1, then `manualSection.create`. -/
def addSectionTx (db : DB) (manualId : Nat) (title : String) (parentId : Option Nat)
    (freshId : Nat) : DB × SectionRow :=
  let depth : Nat :=
    match parentId with
    | none => 1
    | some pid =>
      match findSection db pid with
      | some parent => parent.depth + 1
      | none => 1
  let nextOrder :=
    (maxOrder? ((siblingSections db manualId parentId).map (fun s => s.order))).getD (-1) + 1
  let sec : SectionRow :=
    { id := freshId, manualId := manualId, title := title, order := nextOrder,
      depth := depth, parentId := parentId }
  ({ db with sections := db.sections ++ [sec] }, sec)

/-- POST /api/manual/[id]/section with the `requireManualEditAccess` gate. -/
def addSectionEndpoint (db : DB) (userId manualId : Nat) (title : String)
    (parentId : Option Nat) (freshId : Nat) : ApiResponse × DB × Option SectionRow :=
  match findManual db manualId with
  | none => ({ status := 404, ok := false, error := some "메뉴얼을 찾을 수 없습니다" }, db, none)
  | some manual =>
    if !routeCanEdit db userId manual then
      ({ status := 403, ok := false, error := some "편집 권한이 없습니다" }, db, none)
    else
      let out := addSectionTx db manualId title parentId freshId
      ({ status := 200, ok := true, error := none }, out.1, some out.2)

/-- C6: for an add-section request that passes the edit gate, the created
section's depth is parent.depth + 1 when an existing parent is supplied and
1 when none is; its order is the current maximum sibling order plus one
(0 for an empty scope), so a gap-free scope 0..k-1 stays gap-free 0..k. -/
theorem addSection_depth_and_order (db : DB) (userId manualId : Nat) (title : String)
    (parentId : Option Nat) (freshId : Nat) (manual : ManualRow)
    (hm : findManual db manualId = some manual)
    (hedit : routeCanEdit db userId manual = true) :
    ∃ sec, (addSectionEndpoint db userId manualId title parentId freshId).2.2 = some sec ∧
      (∀ pid parent, parentId = some pid → findSection db pid = some parent →
        sec.depth = parent.depth + 1) ∧
      (parentId = none → sec.depth = 1) ∧
      (siblingSections db manualId parentId = [] → sec.order = 0) ∧
      (∀ m, maxOrder? ((siblingSections db manualId parentId).map (fun s => s.order))
          = some m → sec.order = m + 1) ∧
      (∀ k, (siblingSections db manualId parentId).map (fun s => s.order) = intRange k →
        sec.order = (k : Int)) := by
  unfold addSectionEndpoint
  rw [hm]
  dsimp only
  rw [hedit]
  refine ⟨_, rfl, ?_, ?_, ?_, ?_, ?_⟩
  · intro pid parent hpid hparent
    simp only [addSectionTx, hpid, hparent]
  · intro hnone
    simp only [addSectionTx, hnone]
  · intro hempty
    simp only [addSectionTx, hempty, List.map_nil, maxOrder?]
    rfl
  · intro m hmax
    simp only [addSectionTx, hmax]
    rfl
  · intro k hk
    simp only [addSectionTx, hk, maxOrder?_intRange]

/-- C6 witness: under parent 70 (depth 1) of manual 7, owner 1 creates a
child section; its depth is 2 and, the scope being empty, its order is 0;
at top level (no parent, sibling order list = intRange 1) the new order
is 1. -/
theorem addSection_depth_and_order_witness :
    (∃ sec, (addSectionEndpoint crossManualDB 1 7 "child" (some 70) 71).2.2 = some sec ∧
      sec.depth = 2 ∧ sec.order = 0) ∧
    (∃ sec, (addSectionEndpoint crossManualDB 1 7 "top" none 72).2.2 = some sec ∧
      sec.depth = 1 ∧ sec.order = 1) := by
  constructor
  · obtain ⟨sec, hsec, hdepth, _, hempty, _, _⟩ :=
      addSection_depth_and_order crossManualDB 1 7 "child" (some 70) 71 manual7
        (by decide) (by decide)
    exact ⟨sec, hsec, hdepth 70 sec70 rfl (by decide), hempty (by decide)⟩
  · obtain ⟨sec, hsec, _, hnone, _, _, hrange⟩ :=
      addSection_depth_and_order crossManualDB 1 7 "top" none 72 manual7
        (by decide) (by decide)
    exact ⟨sec, hsec, hnone rfl, hrange 1 (by decide)⟩

/-! ## C5: sequential adds are contiguous; reorder is idempotent -/

theorem intRange_succ (k : Nat) : intRange (k + 1) = intRange k ++ [(k : Int)] := by
  simp [intRange, List.range_succ]

/-- N add-block requests in sequence into the same section. -/
def addBlocksSeq (sectionId : Nat) (ty : BlockType) (content : String) :
    List Nat → DB → DB
  | [], db => db
  | fid :: rest, db =>
    addBlocksSeq sectionId ty content rest (addBlockTx db sectionId ty content fid).1

/-- N add-section requests in sequence into the same (manual, parent) scope. -/
def addSectionsSeq (manualId : Nat) (parentId : Option Nat) (title : String) :
    List Nat → DB → DB
  | [], db => db
  | fid :: rest, db =>
    addSectionsSeq manualId parentId title rest (addSectionTx db manualId title parentId fid).1

theorem sectionBlocks_addBlockTx (db : DB) (sectionId : Nat) (ty : BlockType)
    (content : String) (freshId : Nat) :
    sectionBlocks (addBlockTx db sectionId ty content freshId).1 sectionId
      = sectionBlocks db sectionId ++ [(addBlockTx db sectionId ty content freshId).2] := by
  unfold addBlockTx sectionBlocks
  simp [List.filter_append]

theorem siblingSections_addSectionTx (db : DB) (manualId : Nat) (title : String)
    (parentId : Option Nat) (freshId : Nat) :
    siblingSections (addSectionTx db manualId title parentId freshId).1 manualId parentId
      = siblingSections db manualId parentId
          ++ [(addSectionTx db manualId title parentId freshId).2] := by
  unfold addSectionTx siblingSections
  simp [List.filter_append]

theorem addBlocksSeq_orders (sectionId : Nat) (ty : BlockType) (content : String)
    (fids : List Nat) : ∀ (db : DB) (k : Nat),
    (sectionBlocks db sectionId).map (fun b => b.order) = intRange k →
    (sectionBlocks (addBlocksSeq sectionId ty content fids db) sectionId).map
        (fun b => b.order) = intRange (k + fids.length) := by
  induction fids with
  | nil => intro db k h; simpa using h
  | cons fid rest ih =>
    intro db k h
    rw [addBlocksSeq]
    have horder : (addBlockTx db sectionId ty content fid).2.order = (k : Int) := by
      unfold addBlockTx
      dsimp only
      rw [h, maxOrder?_intRange]
    have hstep : (sectionBlocks (addBlockTx db sectionId ty content fid).1 sectionId).map
        (fun b => b.order) = intRange (k + 1) := by
      rw [sectionBlocks_addBlockTx, List.map_append, h, intRange_succ]
      simp [horder]
    have := ih _ (k + 1) hstep
    rw [this]
    congr 1
    simp [List.length_cons]
    omega

theorem addSectionsSeq_orders (manualId : Nat) (parentId : Option Nat) (title : String)
    (fids : List Nat) : ∀ (db : DB) (k : Nat),
    (siblingSections db manualId parentId).map (fun s => s.order) = intRange k →
    (siblingSections (addSectionsSeq manualId parentId title fids db) manualId
        parentId).map (fun s => s.order) = intRange (k + fids.length) := by
  induction fids with
  | nil => intro db k h; simpa using h
  | cons fid rest ih =>
    intro db k h
    rw [addSectionsSeq]
    have horder : (addSectionTx db manualId title parentId fid).2.order = (k : Int) := by
      unfold addSectionTx
      dsimp only
      rw [h, maxOrder?_intRange]
    have hstep : (siblingSections (addSectionTx db manualId title parentId fid).1 manualId
        parentId).map (fun s => s.order) = intRange (k + 1) := by
      rw [siblingSections_addSectionTx, List.map_append, h, intRange_succ]
      simp [horder]
    have := ih _ (k + 1) hstep
    rw [this]
    congr 1
    simp [List.length_cons]
    omega

/-- One `prisma.manualSection.update({ where: { id }, data: { order } })`:
fails (throwing, which aborts the surrounding transaction) when no row has
the id, otherwise rewrites that row's order. -/
def updateSectionOrder (sections : List SectionRow) (targetId : Nat) (newOrder : Int) :
    Option (List SectionRow) :=
  if sections.any (fun s => s.id == targetId) then
    some (sections.map (fun s => if s.id == targetId then { s with order := newOrder } else s))
  else none

/-- The reorder transaction: the batch of per-row updates from
PUT /api/manual/[id]/section/reorder lines 73-80, all-or-nothing. -/
def applyReorder : List (Nat × Int) → List SectionRow → Option (List SectionRow)
  | [], l => some l
  | (sid, o) :: rest, l =>
    match updateSectionOrder l sid o with
    | none => none
    | some l₁ => applyReorder rest l₁

def reorderSectionsTx (db : DB) (pairs : List (Nat × Int)) : Option DB :=
  (applyReorder pairs db.sections).map (fun secs => { db with sections := secs })

/-- The last order assigned to `targetId` by the pair list, if any. -/
def lastAssignment : List (Nat × Int) → Nat → Option Int
  | [], _ => none
  | (sid, o) :: rest, targetId =>
    match lastAssignment rest targetId with
    | some v => some v
    | none => if targetId == sid then some o else none

/-- Net effect of the pair list on one row. -/
def applyAssignment (pairs : List (Nat × Int)) (s : SectionRow) : SectionRow :=
  match lastAssignment pairs s.id with
  | some v => { s with order := v }
  | none => s

theorem applyAssignment_id (pairs : List (Nat × Int)) (s : SectionRow) :
    (applyAssignment pairs s).id = s.id := by
  unfold applyAssignment
  cases lastAssignment pairs s.id <;> rfl

theorem lastAssignment_cons (sid : Nat) (o : Int) (rest : List (Nat × Int)) (x : Nat) :
    lastAssignment ((sid, o) :: rest) x
      = match lastAssignment rest x with
        | some v => some v
        | none => if x == sid then some o else none := rfl

theorem applyAssignment_cons (sid : Nat) (o : Int) (rest : List (Nat × Int))
    (s : SectionRow) :
    applyAssignment ((sid, o) :: rest) s
      = applyAssignment rest (if s.id == sid then { s with order := o } else s) := by
  obtain ⟨i, m, t, ord, d, p⟩ := s
  by_cases hid : (i == sid) = true
  · cases h2 : lastAssignment rest i with
    | some v => simp [applyAssignment, lastAssignment_cons, h2, hid]
    | none => simp [applyAssignment, lastAssignment_cons, h2, hid]
  · cases h2 : lastAssignment rest i with
    | some v => simp [applyAssignment, lastAssignment_cons, h2, hid]
    | none => simp [applyAssignment, lastAssignment_cons, h2, hid]

theorem applyAssignment_idem (pairs : List (Nat × Int)) (s : SectionRow) :
    applyAssignment pairs (applyAssignment pairs s) = applyAssignment pairs s := by
  obtain ⟨i, m, t, ord, d, p⟩ := s
  cases h : lastAssignment pairs i with
  | none => simp [applyAssignment, h]
  | some v => simp [applyAssignment, h]

theorem updOrder_id (sid : Nat) (o : Int) (s : SectionRow) :
    (if s.id == sid then { s with order := o } else s).id = s.id := by
  split <;> rfl

theorem any_id_map_upd (l : List SectionRow) (sid : Nat) (o : Int) (x : Nat) :
    (l.map fun s => if s.id == sid then { s with order := o } else s).any
        (fun s => s.id == x)
      = l.any (fun s => s.id == x) := by
  rw [List.any_map]
  congr 1
  funext s
  simp only [Function.comp_apply]
  rw [updOrder_id]

/-- Semantic characterisation of the reorder transaction: it succeeds iff
every mentioned id is present, and then each row carries the last order
assigned to it. -/
theorem applyReorder_char (pairs : List (Nat × Int)) :
    ∀ (l r : List SectionRow),
    applyReorder pairs l = some r ↔
      ((∀ p ∈ pairs, l.any (fun s => s.id == p.1) = true) ∧
        r = l.map (applyAssignment pairs)) := by
  induction pairs with
  | nil =>
    intro l r
    rw [applyReorder]
    have hmap : l.map (applyAssignment []) = l := List.map_id'' (fun s => rfl) l
    constructor
    · intro h
      exact ⟨by simp, by rw [hmap]; exact (Option.some.inj h).symm⟩
    · intro ⟨_, hr⟩
      rw [hmap] at hr
      rw [hr]
  | cons p rest ih =>
    intro l r
    obtain ⟨sid, o⟩ := p
    rw [applyReorder]
    unfold updateSectionOrder
    by_cases hany : l.any (fun s => s.id == sid) = true
    · rw [if_pos hany]
      dsimp only
      rw [ih]
      constructor
      · intro ⟨hall, hr⟩
        refine ⟨?_, ?_⟩
        · intro q hq
          rcases List.mem_cons.mp hq with hq | hq
          · rw [hq]; exact hany
          · have := hall q hq
            rwa [any_id_map_upd] at this
        · rw [hr, List.map_map]
          apply List.map_congr_left
          intro s _
          exact (applyAssignment_cons sid o rest s).symm
      · intro ⟨hall, hr⟩
        refine ⟨?_, ?_⟩
        · intro q hq
          rw [any_id_map_upd]
          exact hall q (List.mem_cons_of_mem _ hq)
        · rw [hr, List.map_map]
          apply List.map_congr_left
          intro s _
          exact applyAssignment_cons sid o rest s
    · rw [if_neg hany]
      constructor
      · intro h
        cases h
      · intro ⟨hall, _⟩
        exact absurd (hall (sid, o) (List.mem_cons_self _ _)) hany

theorem applyReorder_idem (pairs : List (Nat × Int)) (l r : List SectionRow)
    (h : applyReorder pairs l = some r) : applyReorder pairs r = some r := by
  obtain ⟨hall, hr⟩ := (applyReorder_char pairs l r).mp h
  apply (applyReorder_char pairs r r).mpr
  refine ⟨?_, ?_⟩
  · intro q hq
    rw [hr, List.any_map]
    have := hall q hq
    calc l.any ((fun s => s.id == q.1) ∘ applyAssignment pairs)
        = l.any (fun s => s.id == q.1) := by
          congr 1
          funext s
          simp only [Function.comp_apply]
          rw [applyAssignment_id]
      _ = true := this
  · rw [hr, List.map_map]
    symm
    apply List.map_congr_left
    intro s _
    simp only [Function.comp_apply]
    exact applyAssignment_idem pairs s

theorem reorderSectionsTx_idem (db db' : DB) (pairs : List (Nat × Int))
    (h : reorderSectionsTx db pairs = some db') :
    reorderSectionsTx db' pairs = some db' := by
  unfold reorderSectionsTx at h ⊢
  cases hsecs : applyReorder pairs db.sections with
  | none => rw [hsecs] at h; cases h
  | some secs =>
    rw [hsecs] at h
    simp only [Option.map_some'] at h
    have h' := Option.some.inj h
    subst h'
    have hidem := applyReorder_idem pairs db.sections secs hsecs
    dsimp only
    rw [hidem]
    rfl

/-- C5: N sequential adds into an initially empty scope produce the order
values 0, 1, ..., N-1 (strictly increasing and contiguous), for blocks in a
section and for sections in a (manual, parent) sibling scope; and the
reorder transaction is idempotent — reapplying a set of (id, order) pairs
to its own result succeeds and changes nothing. -/
theorem sequentialAdd_contiguous_reorder_idempotent
    (sectionId : Nat) (ty : BlockType) (content : String) (bids : List Nat) (db₁ : DB)
    (h₁ : sectionBlocks db₁ sectionId = [])
    (manualId : Nat) (parentId : Option Nat) (title : String) (fids : List Nat) (db₂ : DB)
    (h₂ : siblingSections db₂ manualId parentId = [])
    (db₃ db₃' : DB) (pairs : List (Nat × Int))
    (h₃ : reorderSectionsTx db₃ pairs = some db₃') :
    (sectionBlocks (addBlocksSeq sectionId ty content bids db₁) sectionId).map
        (fun b => b.order) = intRange bids.length ∧
    (siblingSections (addSectionsSeq manualId parentId title fids db₂) manualId
        parentId).map (fun s => s.order) = intRange fids.length ∧
    reorderSectionsTx db₃' pairs = some db₃' := by
  refine ⟨?_, ?_, reorderSectionsTx_idem db₃ db₃' pairs h₃⟩
  · have hbase : (sectionBlocks db₁ sectionId).map (fun b => b.order) = intRange 0 := by
      rw [h₁]; rfl
    simpa using addBlocksSeq_orders sectionId ty content bids db₁ 0 hbase
  · have hbase : (siblingSections db₂ manualId parentId).map (fun s => s.order)
        = intRange 0 := by
      rw [h₂]; rfl
    simpa using addSectionsSeq_orders manualId parentId title fids db₂ 0 hbase

/-- State reached from `crossManualDB` by the reorder pair (70, 5): section 70 carries
order 5. -/
def reordered70DB : DB :=
  { crossManualDB with sections := [{ sec70 with order := 5 }] }

/-- C5 witness: three block adds into empty section 70 give orders 0,1,2;
two child-section adds under section 70 give orders 0,1; and reapplying the
pair set [(70, 5)] to its own result is a no-op. -/
theorem sequentialAdd_contiguous_reorder_idempotent_witness :
    (sectionBlocks (addBlocksSeq 70 BlockType.BODY "b" [900, 901, 902] crossManualDB) 70).map
        (fun b => b.order) = intRange 3 ∧
    (siblingSections (addSectionsSeq 7 (some 70) "s" [71, 72] crossManualDB) 7
        (some 70)).map (fun s => s.order) = intRange 2 ∧
    reorderSectionsTx reordered70DB [(70, 5)] = some reordered70DB :=
  sequentialAdd_contiguous_reorder_idempotent 70 BlockType.BODY "b" [900, 901, 902]
    crossManualDB (by decide) 7 (some 70) "s" [71, 72] crossManualDB (by decide)
    crossManualDB reordered70DB [(70, 5)] (by decide)

/-! ## C3 / C4: version restore
(POST /api/manual/[id]/version/[versionId]/restore)

The stored version content is a JSON blob; `JSON.parse` is a platform
primitive, modelled as an `Option Snapshot`-returning `parse` parameter
(`none` = the exception branch).  The transaction deletes the manual's
sections (blocks cascade), overwrites title/description and recreates the
snapshot rows; the store's fresh ids are the `sid`/`bid` parameters; each
created section's `parentId` is copied verbatim from the snapshot. -/

structure SnapshotBlock where
  type : BlockType
  content : String
  order : Int
deriving DecidableEq, Repr

structure SnapshotSection where
  title : String
  order : Int
  depth : Nat
  parentId : Option Nat
  blocks : List SnapshotBlock
deriving DecidableEq, Repr

structure Snapshot where
  title : String
  description : Option String
  sections : List SnapshotSection
deriving DecidableEq, Repr

/-- The section rows recreated by the restore loop: fresh ids, all other
fields — `parentId` included — taken from the snapshot. -/
def restoredSections (snap : Snapshot) (manualId : Nat) (sid : Nat → Nat) :
    List SectionRow :=
  snap.sections.enum.map (fun p =>
    { id := sid p.1, manualId := manualId, title := p.2.title, order := p.2.order,
      depth := p.2.depth, parentId := p.2.parentId })

/-- The nested `blocks.create` rows: attached to the freshly created
section, fields from the snapshot. -/
def restoredBlocks (snap : Snapshot) (sid : Nat → Nat) (bid : Nat → Nat → Nat) :
    List BlockRow :=
  (snap.sections.enum.map (fun p =>
    p.2.blocks.enum.map (fun q =>
      ({ id := bid p.1 q.1, sectionId := sid p.1, type := q.2.type,
         content := q.2.content, order := q.2.order } : BlockRow)))).flatten

/-- The restore transaction (route lines 190-226): `deleteMany` of the
manual's sections with block cascade, metadata update, recreation loop. -/
def restoreTx (db : DB) (manualId : Nat) (snap : Snapshot) (sid : Nat → Nat)
    (bid : Nat → Nat → Nat) : DB :=
  let deleted := db.sections.filter (fun s => s.manualId == manualId)
  { db with
    manuals := db.manuals.map (fun m =>
      if m.id == manualId then
        { m with title := snap.title, description := snap.description }
      else m)
    sections := db.sections.filter (fun s => !(s.manualId == manualId))
        ++ restoredSections snap manualId sid
    blocks := db.blocks.filter (fun b => deleted.all (fun s => !(s.id == b.sectionId)))
        ++ restoredBlocks snap sid bid }

/-- Lookup `prisma.manualVersion.findUnique` by version id and manual id. -/
def findVersion (db : DB) (versionId manualId : Nat) : Option VersionRow :=
  db.versions.find? (fun v => v.id == versionId && v.manualId == manualId)

def restoreEndpoint (db : DB) (userId manualId versionId : Nat)
    (parse : String → Option Snapshot) (sid : Nat → Nat) (bid : Nat → Nat → Nat) :
    ApiResponse × DB :=
  match findManual db manualId with
  | none => ({ status := 404, ok := false, error := some "메뉴얼을 찾을 수 없습니다" }, db)
  | some manual =>
    if !routeCanEdit db userId manual then
      ({ status := 403, ok := false, error := some "편집 권한이 없습니다" }, db)
    else
      match findVersion db versionId manualId with
      | none => ({ status := 404, ok := false, error := some "버전을 찾을 수 없습니다" }, db)
      | some version =>
        match parse version.content with
        | none =>
          ({ status := 400, ok := false, error := some "버전 데이터가 손상되었습니다" }, db)
        | some snap =>
          ({ status := 200, ok := true, error := none }, restoreTx db manualId snap sid bid)

theorem restoreEndpoint_success (db : DB) (userId manualId versionId : Nat)
    (parse : String → Option Snapshot) (sid : Nat → Nat) (bid : Nat → Nat → Nat)
    (manual : ManualRow) (hm : findManual db manualId = some manual)
    (hedit : routeCanEdit db userId manual = true)
    (version : VersionRow) (hv : findVersion db versionId manualId = some version)
    (snap : Snapshot) (hparse : parse version.content = some snap) :
    restoreEndpoint db userId manualId versionId parse sid bid
      = ({ status := 200, ok := true, error := none }, restoreTx db manualId snap sid bid) := by
  unfold restoreEndpoint
  simp [hm, hedit, hv, hparse]

theorem restoreTx_mid_sections (db : DB) (manualId : Nat) (snap : Snapshot)
    (sid : Nat → Nat) (bid : Nat → Nat → Nat) :
    (restoreTx db manualId snap sid bid).sections.filter (fun s => s.manualId == manualId)
      = restoredSections snap manualId sid := by
  unfold restoreTx
  dsimp only
  rw [List.filter_append]
  have h1 : (db.sections.filter (fun s => !(s.manualId == manualId))).filter
      (fun s => s.manualId == manualId) = [] := by
    rw [List.filter_eq_nil_iff]
    intro s hsmem
    have := (List.mem_filter.mp hsmem).2
    simp only [Bool.not_eq_true'] at this
    simp [this]
  have h2 : (restoredSections snap manualId sid).filter
      (fun s => s.manualId == manualId) = restoredSections snap manualId sid := by
    rw [List.filter_eq_self]
    intro s hsmem
    obtain ⟨p, _, rfl⟩ := List.mem_map.mp hsmem
    simp
  rw [h1, h2, List.nil_append]

/-- C3: a successful restore (version found for this manual, snapshot
parses) rebuilds the store as the source does: the response is 200 and the
new state is `restoreTx`, in which (a) the manual's rows in the section
table are exactly the recreated rows, with fresh ids `sid 0..n-1` and with
every `parentId` copied verbatim from the snapshot (not remapped to the
fresh ids); (b) the manual's title and description are overwritten from the
snapshot; (c) every surviving block is either a recreated snapshot block or
an old block whose section was not one of the manual's deleted sections. -/
theorem restore_recreates_from_snapshot (db : DB) (userId manualId versionId : Nat)
    (parse : String → Option Snapshot) (sid : Nat → Nat) (bid : Nat → Nat → Nat)
    (manual : ManualRow) (hm : findManual db manualId = some manual)
    (hedit : routeCanEdit db userId manual = true)
    (version : VersionRow) (hv : findVersion db versionId manualId = some version)
    (snap : Snapshot) (hparse : parse version.content = some snap) :
    (restoreEndpoint db userId manualId versionId parse sid bid).1.status = 200 ∧
    (restoreEndpoint db userId manualId versionId parse sid bid).2
      = restoreTx db manualId snap sid bid ∧
    (restoreTx db manualId snap sid bid).sections.filter (fun s => s.manualId == manualId)
      = restoredSections snap manualId sid ∧
    (restoredSections snap manualId sid).map (fun s => s.parentId)
      = snap.sections.map (fun s => s.parentId) ∧
    (restoredSections snap manualId sid).map (fun s => s.id)
      = (List.range snap.sections.length).map sid ∧
    (∀ m ∈ db.manuals, m.id = manualId →
      { m with title := snap.title, description := snap.description }
        ∈ (restoreTx db manualId snap sid bid).manuals) ∧
    (∀ b ∈ (restoreTx db manualId snap sid bid).blocks,
      b ∈ restoredBlocks snap sid bid ∨
        (b ∈ db.blocks ∧ ∀ s ∈ db.sections, s.manualId = manualId → b.sectionId ≠ s.id)) := by
  have hend := restoreEndpoint_success db userId manualId versionId parse sid bid manual hm
    hedit version hv snap hparse
  refine ⟨by rw [hend], by rw [hend], restoreTx_mid_sections db manualId snap sid bid,
    ?_, ?_, ?_, ?_⟩
  · unfold restoredSections
    rw [List.map_map]
    conv_rhs => rw [← List.enum_map_snd snap.sections]
    rw [List.map_map]
    rfl
  · unfold restoredSections
    rw [List.map_map]
    rw [← List.enum_map_fst snap.sections, List.map_map]
    rfl
  · intro m hmem hmid
    unfold restoreTx
    dsimp only
    have hf : (fun m : ManualRow =>
        if m.id == manualId then
          { m with title := snap.title, description := snap.description }
        else m) m = { m with title := snap.title, description := snap.description } := by
      simp [hmid]
    exact hf ▸ List.mem_map_of_mem _ hmem
  · intro b hb
    unfold restoreTx at hb
    dsimp only at hb
    rcases List.mem_append.mp hb with hb | hb
    · right
      obtain ⟨hbmem, hall⟩ := List.mem_filter.mp hb
      refine ⟨hbmem, ?_⟩
      intro s hsmem hsmid
      have := List.all_eq_true.mp hall s (List.mem_filter.mpr ⟨hsmem, by simp [hsmid]⟩)
      simp only [Bool.not_eq_true'] at this
      intro hcontra
      rw [hcontra] at this
      simp at this
    · left
      exact hb

/-- Restore witness data: manual 7 currently has section 70 with one block;
version 500 stores a parseable snapshot whose second section's `parentId`
still names the old id 70; version 501 stores malformed JSON. -/
def snapA : Snapshot :=
  { title := "T", description := some "D"
    sections :=
      [ { title := "s1", order := 0, depth := 1, parentId := none,
          blocks := [{ type := .BODY, content := "<p>a</p>", order := 0 }] }
      , { title := "s2", order := 1, depth := 2, parentId := some 70, blocks := [] } ] }

def block700 : BlockRow :=
  { id := 700, sectionId := 70, type := .BODY, content := "<p>old</p>", order := 0 }

def restoreDB : DB :=
  { crossManualDB with
    blocks := [block700]
    versions :=
      [ { id := 500, manualId := 7, content := "goodjson" }
      , { id := 501, manualId := 7, content := "brokenjson" } ] }

/-- The modelled `JSON.parse` for the witness store: version 500's blob
parses to `snapA`, anything else throws. -/
def parseW : String → Option Snapshot :=
  fun s => if s == "goodjson" then some snapA else none

def sidW : Nat → Nat := fun i => 100 + i

def bidW : Nat → Nat → Nat := fun i j => 1000 + 10 * i + j

/-- C3 witness: restoring version 500 of manual 7 succeeds; the manual's
section rows become exactly the two recreated rows with fresh ids 100, 101
and parentIds none and (verbatim) some 70; the metadata is overwritten. -/
theorem restore_recreates_from_snapshot_witness :
    (restoreEndpoint restoreDB 1 7 500 parseW sidW bidW).1.status = 200 ∧
    (restoreTx restoreDB 7 snapA sidW bidW).sections.filter (fun s => s.manualId == 7)
      = restoredSections snapA 7 sidW ∧
    (restoredSections snapA 7 sidW).map (fun s => s.parentId) = [none, some 70] ∧
    (restoredSections snapA 7 sidW).map (fun s => s.id) = [100, 101] ∧
    { manual7 with title := "T", description := some "D" }
      ∈ (restoreTx restoreDB 7 snapA sidW bidW).manuals := by
  have h := restore_recreates_from_snapshot restoreDB 1 7 500 parseW sidW bidW manual7
    (by decide) (by decide)
    { id := 500, manualId := 7, content := "goodjson" } (by decide) snapA (by decide)
  exact ⟨h.1, h.2.2.1, h.2.2.2.1.trans (by decide), h.2.2.2.2.1.trans (by decide),
    h.2.2.2.2.2.1 manual7 (by decide) rfl⟩

/-- C4: when the stored version content does not parse, the restore
endpoint answers 400 with the "corrupted version" message and returns the
store untouched — title, description, sections and blocks all unchanged. -/
theorem restore_corrupted_version_aborts (db : DB) (userId manualId versionId : Nat)
    (parse : String → Option Snapshot) (sid : Nat → Nat) (bid : Nat → Nat → Nat)
    (manual : ManualRow) (hm : findManual db manualId = some manual)
    (hedit : routeCanEdit db userId manual = true)
    (version : VersionRow) (hv : findVersion db versionId manualId = some version)
    (hparse : parse version.content = none) :
    (restoreEndpoint db userId manualId versionId parse sid bid).1.status = 400 ∧
    (restoreEndpoint db userId manualId versionId parse sid bid).1.error
      = some "버전 데이터가 손상되었습니다" ∧
    (restoreEndpoint db userId manualId versionId parse sid bid).2 = db := by
  unfold restoreEndpoint
  simp [hm, hedit, hv, hparse]

/-- C4 witness: version 501's content is malformed, so restoring it leaves
`restoreDB` byte-for-byte unchanged and answers 400. -/
theorem restore_corrupted_version_aborts_witness :
    (restoreEndpoint restoreDB 1 7 501 parseW sidW bidW).1.status = 400 ∧
    (restoreEndpoint restoreDB 1 7 501 parseW sidW bidW).1.error
      = some "버전 데이터가 손상되었습니다" ∧
    (restoreEndpoint restoreDB 1 7 501 parseW sidW bidW).2 = restoreDB :=
  restore_corrupted_version_aborts restoreDB 1 7 501 parseW sidW bidW manual7
    (by decide) (by decide)
    { id := 501, manualId := 7, content := "brokenjson" } (by decide) (by decide)

/-! ## C8: search (GET /api/search)

Prisma `contains` is substring containment; the handler trims the query,
returns empty results for an empty query, computes the accessible manual
ids (owned + team + explicitly shared), and filters manuals, sections and
blocks, keeping at most 20/30/50 rows respectively.  The model keeps rows
in table order (it carries no timestamps, so the `orderBy updatedAt desc`
sort before the `take` is not represented); this does not affect which
kinds of rows can appear. -/

/-- Substring containment on character lists. -/
def charListContains (q : List Char) : List Char → Bool
  | [] => q.isEmpty
  | c :: rest => q.isPrefixOf (c :: rest) || charListContains q rest

/-- Prisma substring filter `contains` applied to a field. -/
def strContains (s q : String) : Bool :=
  charListContains q.toList s.toList

structure SearchResults where
  manuals : List ManualRow
  sections : List SectionRow
  blocks : List BlockRow
deriving DecidableEq, Repr

/-- Team ids of the requester (`teamMember.findMany` + map). -/
def userTeamIds (db : DB) (userId : Nat) : List Nat :=
  (db.teamMembers.filter (fun tm => tm.userId == userId)).map (fun tm => tm.teamId)

/-- Ids of the manuals the requester can access: the `OR` of ownership,
team membership and explicit share (route lines 41-56). -/
def accessibleManualIds (db : DB) (userId : Nat) : List Nat :=
  (db.manuals.filter (fun m =>
    m.ownerId == userId
      || (userTeamIds db userId).contains m.teamId
      || db.manualShares.any (fun sh => sh.manualId == m.id && sh.userId == userId))).map
    (fun m => m.id)

def searchEndpoint (db : DB) (userId : Nat) (query : String) : SearchResults :=
  let trimmed := query.trim
  if trimmed.isEmpty then { manuals := [], sections := [], blocks := [] }
  else
    let manualIds := accessibleManualIds db userId
    if manualIds.isEmpty then { manuals := [], sections := [], blocks := [] }
    else
      { manuals := (db.manuals.filter (fun m =>
          manualIds.contains m.id
            && (strContains m.title trimmed
                || strContains (m.description.getD "") trimmed))).take 20
        sections := (db.sections.filter (fun s =>
          manualIds.contains s.manualId && strContains s.title trimmed)).take 30
        blocks := (db.blocks.filter (fun b =>
          db.sections.any (fun s => s.id == b.sectionId && manualIds.contains s.manualId)
            && strContains b.content trimmed)).take 50 }

theorem searchEndpoint_filters (db : DB) (userId : Nat) (query : String) :
    (∀ m ∈ (searchEndpoint db userId query).manuals,
      (accessibleManualIds db userId).contains m.id = true ∧
      (strContains m.title query.trim || strContains (m.description.getD "") query.trim)
        = true) ∧
    (∀ s ∈ (searchEndpoint db userId query).sections,
      (accessibleManualIds db userId).contains s.manualId = true ∧
      strContains s.title query.trim = true) ∧
    (∀ b ∈ (searchEndpoint db userId query).blocks,
      (∃ s ∈ db.sections, s.id = b.sectionId ∧
        (accessibleManualIds db userId).contains s.manualId = true) ∧
      strContains b.content query.trim = true) := by
  unfold searchEndpoint
  by_cases htrim : query.trim.isEmpty
  · simp [htrim]
  · rw [if_neg (by simpa using htrim)]
    by_cases hacc : (accessibleManualIds db userId).isEmpty
    · rw [if_pos hacc]
      refine ⟨?_, ?_, ?_⟩ <;> intro x hx <;> simp at hx
    · rw [if_neg hacc]
      dsimp only
      refine ⟨?_, ?_, ?_⟩
      · intro m hm
        have := List.mem_filter.mp (List.mem_of_mem_take hm)
        have hp := this.2
        simp only [Bool.and_eq_true] at hp
        exact ⟨hp.1, hp.2⟩
      · intro s hs
        have := List.mem_filter.mp (List.mem_of_mem_take hs)
        have hp := this.2
        simp only [Bool.and_eq_true] at hp
        exact ⟨hp.1, hp.2⟩
      · intro b hb
        have := List.mem_filter.mp (List.mem_of_mem_take hb)
        have hp := this.2
        simp only [Bool.and_eq_true, List.any_eq_true, beq_iff_eq] at hp
        obtain ⟨⟨s, hsmem, hsid, hsacc⟩, hc⟩ := hp
        exact ⟨⟨s, hsmem, hsid, hsacc⟩, hc⟩

/-- C8: every returned search hit matches the trimmed query by substring
containment in the claimed field, and belongs to an accessible manual —
one owned by the requester, in one of the requester's teams, or explicitly
shared with the requester; nothing outside that set is returned. -/
theorem search_scoped_to_accessible_manuals (db : DB) (userId : Nat) (query : String) :
    (∀ m ∈ (searchEndpoint db userId query).manuals,
      (accessibleManualIds db userId).contains m.id = true ∧
      (strContains m.title query.trim || strContains (m.description.getD "") query.trim)
        = true) ∧
    (∀ s ∈ (searchEndpoint db userId query).sections,
      (accessibleManualIds db userId).contains s.manualId = true ∧
      strContains s.title query.trim = true) ∧
    (∀ b ∈ (searchEndpoint db userId query).blocks,
      (∃ s ∈ db.sections, s.id = b.sectionId ∧
        (accessibleManualIds db userId).contains s.manualId = true) ∧
      strContains b.content query.trim = true) ∧
    (∀ mid : Nat, (accessibleManualIds db userId).contains mid = true →
      ∃ m ∈ db.manuals, m.id = mid ∧
        (m.ownerId = userId ∨
          (∃ tm ∈ db.teamMembers, tm.userId = userId ∧ tm.teamId = m.teamId) ∨
          (∃ sh ∈ db.manualShares, sh.manualId = m.id ∧ sh.userId = userId))) := by
  obtain ⟨h1, h2, h3⟩ := searchEndpoint_filters db userId query
  refine ⟨h1, h2, h3, ?_⟩
  intro mid hmid
  unfold accessibleManualIds at hmid
  rw [List.contains_iff_exists_mem_beq] at hmid
  obtain ⟨x, hxmem, hxeq⟩ := hmid
  obtain ⟨m, hmmem, rfl⟩ := List.mem_map.mp hxmem
  obtain ⟨hmm, hp⟩ := List.mem_filter.mp hmmem
  have hmidm : mid = m.id := by simpa using hxeq
  refine ⟨m, hmm, hmidm.symm, ?_⟩
  simp only [Bool.or_eq_true, Bool.and_eq_true, beq_iff_eq, List.any_eq_true] at hp
  rcases hp with (howner | hteam) | hshare
  · exact Or.inl howner
  · right; left
    unfold userTeamIds at hteam
    rw [List.contains_iff_exists_mem_beq] at hteam
    obtain ⟨tid, htidmem, htideq⟩ := hteam
    obtain ⟨tm, htmmem, rfl⟩ := List.mem_map.mp htidmem
    obtain ⟨htm, htmu⟩ := List.mem_filter.mp htmmem
    have htid : m.teamId = tm.teamId := by simpa using htideq
    exact ⟨tm, htm, by simpa using htmu, htid.symm⟩
  · right; right
    obtain ⟨sh, hshmem, hsh1, hsh2⟩ := hshare
    exact ⟨sh, hshmem, hsh1, hsh2⟩

/-- Store for the search witness: user 2's only access to manual 7 is an
explicit share; manual 7's block contains the query text. -/
def searchDB : DB :=
  { crossManualDB with
    manualShares := [{ manualId := 7, userId := 2, permission := .VIEWER }]
    blocks := [block700] }

/-- C8 witness: manual 7 is accessible to user 2 only through the explicit
share, and the theorem explains that access by exhibiting the share row. -/
theorem search_scoped_to_accessible_manuals_witness :
    ∃ m ∈ searchDB.manuals, m.id = 7 ∧
      (m.ownerId = 2 ∨
        (∃ tm ∈ searchDB.teamMembers, tm.userId = 2 ∧ tm.teamId = m.teamId) ∨
        (∃ sh ∈ searchDB.manualShares, sh.manualId = m.id ∧ sh.userId = 2)) :=
  (search_scoped_to_accessible_manuals searchDB 2 "old").2.2.2 7 (by decide)

end Menualic
